import Mathlib

/-!
Shallow embedding of the text-crypto subsystem of the `rust-rcli` repository
(`src/process/text.rs`) and of its password/key-material generator
(`src/process/generate_pass.rs`).

Bytes are modelled as `Nat` (the value of a `u8`), byte buffers as `List Nat`.
A Rust `anyhow::Result<T>` is modelled by `RustOutcome T`, with a third
constructor `panic` for executions that abort (out-of-bounds slice index,
`.expect` on `None`, arithmetic overflow with debug assertions).

The external cryptographic libraries (`blake3`, `ed25519_dalek`,
`chacha20poly1305`) and the `rand` library are not part of the repository;
they are modelled as parameters (`CryptoPrims`, `Rng`) and their documented
contracts appear as explicit hypotheses of the theorems that need them.
Everything defined below on top of these parameters is translated directly
from the repository source.
-/

/-- Outcome of running a piece of Rust code that returns `anyhow::Result α`:
either `Ok`, or `Err` with a message, or a process abort (`panic`). -/
inductive RustOutcome (α : Type) where
  | ok : α → RustOutcome α
  | error : String → RustOutcome α
  | panic : RustOutcome α
deriving DecidableEq, Repr

/-- Sequencing of fallible Rust code, the `?` operator: errors and panics
propagate. -/
def RustOutcome.bind {α β : Type} : RustOutcome α → (α → RustOutcome β) → RustOutcome β
  | .ok a, f => f a
  | .error e, _ => .error e
  | .panic, _ => .panic

@[simp] theorem RustOutcome.bind_ok {α β : Type} (a : α) (f : α → RustOutcome β) :
    RustOutcome.bind (.ok a) f = f a := rfl

@[simp] theorem RustOutcome.bind_error {α β : Type} (e : String) (f : α → RustOutcome β) :
    RustOutcome.bind (.error e) f = .error e := rfl

@[simp] theorem RustOutcome.bind_panic {α β : Type} (f : α → RustOutcome β) :
    RustOutcome.bind (.panic : RustOutcome α) f = .panic := rfl

/-- The external cryptographic primitives used by `src/process/text.rs`.
They live in crates outside the repository, so they are kept abstract;
their standard contracts become hypotheses of the theorems below.
* `blake3KeyedHash key msg`: `blake3::keyed_hash` (32-byte tag)
* `edSign seed msg`: `SigningKey::from_bytes(seed).sign(msg)` (64-byte signature)
* `edVerify pub msg sig`: `VerifyingKey.verify(msg, sig).is_ok()`
* `edDerivePub seed`: bytes of the verifying key of `SigningKey::from_bytes(seed)`
* `edPubValid bytes`: whether `VerifyingKey::from_bytes(bytes)` succeeds
* `aeadEncrypt key nonce pt` / `aeadDecrypt key nonce ct`: ChaCha20-Poly1305,
  decryption returning `none` on authentication failure. -/
structure CryptoPrims where
  blake3KeyedHash : List Nat → List Nat → List Nat
  edSign : List Nat → List Nat → List Nat
  edVerify : List Nat → List Nat → List Nat → Bool
  edDerivePub : List Nat → List Nat
  edPubValid : List Nat → Bool
  aeadEncrypt : List Nat → List Nat → List Nat → List Nat
  aeadDecrypt : List Nat → List Nat → List Nat → Option (List Nat)

/-- `TextSignFormat` from `src/cli/text_opts.rs`. -/
inductive TextSignFormat where
  | Blake3
  | Ed25519
deriving DecidableEq, Repr

/-- `pub struct Blake3 { key: [u8; 32] }` -/
structure Blake3 where
  key : List Nat

/-- `pub struct Ed25519Signer { key: SigningKey }` — a `SigningKey` is
determined by its 32-byte seed, which is what we store. -/
structure Ed25519Signer where
  key : List Nat

/-- `pub struct Ed25519Verifier { key: VerifyingKey }` — modelled by the
32-byte encoding of the verifying key. -/
structure Ed25519Verifier where
  key : List Nat

/-- `pub struct Chacha2 { key: [u8; 32] }` -/
structure Chacha2 where
  key : List Nat

/-- The 12-byte nonce that `text_encrypt` and `text_decrypt` both build with
`let ve = vec![249, 115, 113, 158, 149, 52, 117, 46, 246, 119, 228, 36]`. -/
def chachaNonce : List Nat := [249, 115, 113, 158, 149, 52, 117, 46, 246, 119, 228, 36]

/-- `impl TextSigner for Blake3`: read the whole input, return
`blake3::keyed_hash(&self.key, &buf)` as a byte vector. The reader argument
carries the outcome of `read_to_end`. -/
def Blake3.sign (p : CryptoPrims) (b : Blake3) (reader : RustOutcome (List Nat)) :
    RustOutcome (List Nat) :=
  RustOutcome.bind reader fun buf => .ok (p.blake3KeyedHash b.key buf)

/-- `impl TextVerifier for Blake3`: recompute the keyed hash and compare
`ret.as_bytes() == sig` (element-wise equality, `false` on length mismatch). -/
def Blake3.verify (p : CryptoPrims) (b : Blake3) (reader : RustOutcome (List Nat))
    (sig : List Nat) : RustOutcome Bool :=
  RustOutcome.bind reader fun buf => .ok (decide (p.blake3KeyedHash b.key buf = sig))

/-- `impl TextSigner for Ed25519Signer`: read the whole input and sign it. -/
def Ed25519Signer.sign (p : CryptoPrims) (s : Ed25519Signer)
    (reader : RustOutcome (List Nat)) : RustOutcome (List Nat) :=
  RustOutcome.bind reader fun buf => .ok (p.edSign s.key buf)

/-- `impl TextVerifier for Ed25519Verifier`: after reading the input, the code
does `let sig = (&sig[..64]).try_into()?`. Indexing a slice of fewer than 64
bytes with `[..64]` is an out-of-bounds range and panics; with at least 64
bytes the first 64 are taken and `try_into` cannot fail. -/
def Ed25519Verifier.verify (p : CryptoPrims) (v : Ed25519Verifier)
    (reader : RustOutcome (List Nat)) (sig : List Nat) : RustOutcome Bool :=
  RustOutcome.bind reader fun buf =>
    if sig.length < 64 then .panic
    else .ok (p.edVerify v.key buf (sig.take 64))

/-- `impl TextEncrypt for Chacha2::text_encrypt`: read all input, build the
cipher (`new_from_slice` fails only when the key slice is not 32 bytes long),
and encrypt under the hardcoded nonce. -/
def Chacha2.text_encrypt (p : CryptoPrims) (c : Chacha2)
    (reader : RustOutcome (List Nat)) : RustOutcome (List Nat) :=
  RustOutcome.bind reader fun buf =>
    if c.key.length ≠ 32 then .error "encrypt error: invalid key length"
    else .ok (p.aeadEncrypt c.key chachaNonce buf)

/-- `impl TextDecrypt for Chacha2::text_decrypt`: the ciphertext arrives as
`reader: &mut Vec<u8>`; the code only ever reads it (`reader.as_ref()`).
The second component of the result is the state of that caller-owned buffer
after the call, to make the frame condition expressible. -/
def Chacha2.text_decrypt (p : CryptoPrims) (c : Chacha2) (reader : List Nat) :
    RustOutcome (List Nat) × List Nat :=
  if c.key.length ≠ 32 then (.error "encrypt error: invalid key length", reader)
  else
    match p.aeadDecrypt c.key chachaNonce reader with
    | some pt => (.ok pt, reader)
    | none => (.error "decrypt error: aead::Error", reader)

/-- `Blake3::try_new`: reject any key whose length is not 32, then
`(&key[..32]).try_into()` (identity on a 32-byte key). -/
def Blake3.try_new (key : List Nat) : RustOutcome Blake3 :=
  if key.length ≠ 32 then .error "key length must be 32 bytes"
  else .ok ⟨key.take 32⟩

/-- `Ed25519Signer::try_new`: same length check; `SigningKey::from_bytes`
cannot fail. -/
def Ed25519Signer.try_new (key : List Nat) : RustOutcome Ed25519Signer :=
  if key.length ≠ 32 then .error "key length must be 32 bytes"
  else .ok ⟨key.take 32⟩

/-- `Chacha2::try_new`: same length check. -/
def Chacha2.try_new (key : List Nat) : RustOutcome Chacha2 :=
  if key.length ≠ 32 then .error "key length must be 32 bytes"
  else .ok ⟨key.take 32⟩

/-- `Ed25519Verifier::try_new`: length check, then
`VerifyingKey::from_bytes(key)?`, which fails when the 32 bytes do not decode
to a valid curve point. -/
def Ed25519Verifier.try_new (p : CryptoPrims) (key : List Nat) :
    RustOutcome Ed25519Verifier :=
  if key.length ≠ 32 then .error "key length must be 32 bytes"
  else
    if p.edPubValid (key.take 32) then .ok ⟨key.take 32⟩
    else .error "signature error: Verification equation was not satisfied"

/-- `process_text_sign`: dispatch on the format tag, construct the signer
(`?`), sign. -/
def process_text_sign (p : CryptoPrims) (reader : RustOutcome (List Nat))
    (key : List Nat) (format : TextSignFormat) : RustOutcome (List Nat) :=
  match format with
  | .Blake3 => RustOutcome.bind (Blake3.try_new key) fun s => Blake3.sign p s reader
  | .Ed25519 => RustOutcome.bind (Ed25519Signer.try_new key) fun s => Ed25519Signer.sign p s reader

/-- `process_text_verify`: dispatch on the format tag, construct the verifier
(`?`), verify. -/
def process_text_verify (p : CryptoPrims) (reader : RustOutcome (List Nat))
    (key : List Nat) (sig : List Nat) (format : TextSignFormat) : RustOutcome Bool :=
  match format with
  | .Blake3 => RustOutcome.bind (Blake3.try_new key) fun v => Blake3.verify p v reader sig
  | .Ed25519 =>
      RustOutcome.bind (Ed25519Verifier.try_new p key) fun v =>
        Ed25519Verifier.verify p v reader sig

/-- `process_text_encrypt`: construct the cipher engine (`?`), encrypt. -/
def process_text_encrypt (p : CryptoPrims) (reader : RustOutcome (List Nat))
    (key : List Nat) : RustOutcome (List Nat) :=
  RustOutcome.bind (Chacha2.try_new key) fun c => Chacha2.text_encrypt p c reader

/-- `process_text_decrypt`: construct the cipher engine (`?`), decrypt.
Second component: the caller's ciphertext buffer after the call. -/
def process_text_decrypt (p : CryptoPrims) (reader : List Nat) (key : List Nat) :
    RustOutcome (List Nat) × List Nat :=
  match Chacha2.try_new key with
  | .ok c => Chacha2.text_decrypt p c reader
  | .error e => (.error e, reader)
  | .panic => (.panic, reader)

/-! ## Password generator (`src/process/generate_pass.rs`) -/

/-- `const UPPER: &[u8] = b"ABCDEFGHJKLMNPQRSTUVWXYZ";` (no `I`, no `O`). -/
def UPPER : List Nat :=
  [65, 66, 67, 68, 69, 70, 71, 72, 74, 75, 76, 77, 78, 80, 81, 82, 83, 84,
   85, 86, 87, 88, 89, 90]

/-- `const LOWER: &[u8] = b"abcdefjhijkmnopqrstuvwxyz";` (no `g`, no `l`). -/
def LOWER : List Nat :=
  [97, 98, 99, 100, 101, 102, 106, 104, 105, 106, 107, 109, 110, 111, 112,
   113, 114, 115, 116, 117, 118, 119, 120, 121, 122]

/-- `const NUMBER: &[u8] = b"123456789";` (no `0`). -/
def NUMBER : List Nat := [49, 50, 51, 52, 53, 54, 55, 56, 57]

/-- `const SYMBOL: &[u8] = b"!@#$%^&*_";` -/
def SYMBOL : List Nat := [33, 64, 35, 36, 37, 94, 38, 42, 95]

/-- The `rand` crate as used by `process_genpass`: `SliceRandom::choose` and
`SliceRandom::shuffle` on a thread-local RNG. The RNG state is abstracted as
a `Nat`; both operations consume state. These functions live outside the
repository, so they stay abstract; their documented behaviour is the pair of
contracts `Rng.ChooseOk` and `Rng.ShuffleOk` below. -/
structure Rng where
  choose : Nat → List Nat → Option Nat × Nat
  shuffle : Nat → List Nat → List Nat × Nat

/-- Contract of `SliceRandom::choose`: on a nonempty slice it returns `Some`
of one of its elements; on an empty slice it returns `None`. -/
def Rng.ChooseOk (r : Rng) : Prop :=
  ∀ s l, (∀ x, (r.choose s l).1 = some x → x ∈ l) ∧ ((r.choose s l).1 = none → l = [])

/-- Contract of `SliceRandom::shuffle`: the result is a permutation of the
input. -/
def Rng.ShuffleOk (r : Rng) : Prop :=
  ∀ s l, ((r.shuffle s l).1).Perm l

/-- One `if flag { chars.extend_from_slice(ALPHA); password.push(*ALPHA.choose(..).expect(..)) }`
block of `process_genpass`. The state is `(password, chars, rng state)`;
`.expect` on `None` panics. -/
def classStep (r : Rng) (flag : Bool) (alpha : List Nat)
    (st : List Nat × List Nat × Nat) : RustOutcome (List Nat × List Nat × Nat) :=
  if flag then
    match r.choose st.2.2 alpha with
    | (some c, s') => .ok (st.1 ++ [c], st.2.1 ++ alpha, s')
    | (none, _) => .panic
  else .ok st

/-- The `for _ in 0..(length - password.len() as u8)` loop: `n` more draws
from `chars`, each `.expect`ed. -/
def fillLoop (r : Rng) (chars : List Nat) :
    Nat → List Nat → Nat → RustOutcome (List Nat × Nat)
  | 0, password, s => .ok (password, s)
  | n + 1, password, s =>
    match r.choose s chars with
    | (some c, s') => fillLoop r chars n (password ++ [c]) s'
    | (none, _) => .panic

/-- `process_genpass(length, uppercase, lowercase, number, symbol)`.
`length` is a `u8`, modelled as a `Nat`. The subtraction
`length - password.len() as u8` overflows when `length` is smaller than the
number of guaranteed characters already pushed; with debug assertions that
aborts the process, modelled as `panic`. `String::from_utf8` succeeds on the
all-ASCII byte lists the alphabets produce; the resulting `String` carries
exactly the password bytes, which is what we return. -/
def process_genpass (r : Rng) (s0 : Nat) (length : Nat)
    (uppercase lowercase number symbol : Bool) : RustOutcome (List Nat) :=
  RustOutcome.bind (classStep r uppercase UPPER ([], [], s0)) fun st1 =>
  RustOutcome.bind (classStep r lowercase LOWER st1) fun st2 =>
  RustOutcome.bind (classStep r number NUMBER st2) fun st3 =>
  RustOutcome.bind (classStep r symbol SYMBOL st3) fun st4 =>
  if length < st4.1.length then .panic
  else
    RustOutcome.bind (fillLoop r st4.2.1 (length - st4.1.length) st4.1 st4.2.2) fun ps =>
      if ((r.shuffle ps.2 ps.1).1).all (fun b => decide (b < 128)) then
        .ok ((r.shuffle ps.2 ps.1).1)
      else .error "invalid utf-8 sequence"

/-- `Blake3::generate`: a fresh 32-byte symmetric key from
`process_genpass(32, true, true, true, true)`, emitted under the name
`blake3.txt`. The `HashMap<&str, Vec<u8>>` is modelled as an association
list. -/
def Blake3.generate (r : Rng) (s0 : Nat) : RustOutcome (List (String × List Nat)) :=
  RustOutcome.bind (process_genpass r s0 32 true true true true) fun key =>
    .ok [("blake3.txt", key)]

/-- The combined pool `chars` that `process_genpass` draws its fill
characters from, as a function of the four flags. -/
def charPool (uppercase lowercase number symbol : Bool) : List Nat :=
  (if uppercase then UPPER else []) ++ (if lowercase then LOWER else []) ++
    (if number then NUMBER else []) ++ (if symbol then SYMBOL else [])

/-- Number of enabled character classes. -/
def numEnabled (uppercase lowercase number symbol : Bool) : Nat :=
  (if uppercase then 1 else 0) + (if lowercase then 1 else 0) +
    (if number then 1 else 0) + (if symbol then 1 else 0)

/-- All four alphabets together. -/
def ALLCHARS : List Nat := UPPER ++ LOWER ++ NUMBER ++ SYMBOL

/-- A deterministic instance of the `rand` interface used by concrete
witnesses: `choose` picks the head, `shuffle` is the identity. -/
def simpleRng : Rng where
  choose := fun s l => (l.head?, s + 1)
  shuffle := fun s l => (l, s)

/-- A concrete instance of the external crypto primitives used by concrete
witnesses. -/
def testPrims : CryptoPrims where
  blake3KeyedHash := fun _ _ => List.replicate 32 0
  edSign := fun _ _ => List.replicate 64 0
  edVerify := fun _ _ _ => true
  edDerivePub := fun _ => List.replicate 32 0
  edPubValid := fun _ => true
  aeadEncrypt := fun _ _ pt => pt
  aeadDecrypt := fun _ _ ct => some ct

/-- `testPrims` with a public-key decoder that rejects everything. -/
def rejectingPrims : CryptoPrims :=
  { testPrims with edPubValid := fun _ => false }

/-! ## Helper lemmas -/

theorem list_take_of_length_eq {α : Type} {l : List α} {n : Nat} (h : l.length = n) :
    l.take n = l := by
  rw [← h]
  exact List.take_length l

theorem simpleRng_choose_ok : simpleRng.ChooseOk := by
  intro s l
  constructor
  · intro x hx
    cases l with
    | nil => simp [simpleRng] at hx
    | cons a t =>
      simp [simpleRng] at hx
      simp [hx]
  · intro hx
    cases l with
    | nil => rfl
    | cons a t => simp [simpleRng] at hx

theorem simpleRng_shuffle_ok : simpleRng.ShuffleOk := fun _ l => List.Perm.refl l

/-! ## Claim theorems: crypto engines -/

/-- C4: for every key whose length is not 32, construction of every engine
kind (keyed-hash `Blake3`, asymmetric `Ed25519Signer`/`Ed25519Verifier`,
AEAD `Chacha2`) fails with the key-length error before any cryptographic
operation; no half-initialized instance is ever returned. -/
theorem tryNew_rejects_bad_length (p : CryptoPrims) (key : List Nat)
    (h : key.length ≠ 32) :
    Blake3.try_new key = .error "key length must be 32 bytes" ∧
    Ed25519Signer.try_new key = .error "key length must be 32 bytes" ∧
    Chacha2.try_new key = .error "key length must be 32 bytes" ∧
    Ed25519Verifier.try_new p key = .error "key length must be 32 bytes" := by
  refine ⟨?_, ?_, ?_, ?_⟩ <;>
    simp [Blake3.try_new, Ed25519Signer.try_new, Chacha2.try_new,
      Ed25519Verifier.try_new, h]

theorem tryNew_rejects_bad_length_witness :
    Blake3.try_new [] = .error "key length must be 32 bytes" ∧
    Ed25519Signer.try_new [] = .error "key length must be 32 bytes" ∧
    Chacha2.try_new [] = .error "key length must be 32 bytes" ∧
    Ed25519Verifier.try_new testPrims [] = .error "key length must be 32 bytes" :=
  tryNew_rejects_bad_length testPrims [] (by decide)

/-- C3: as the claim reads it, a signature of fewer than 64 bytes should make
the asymmetric verifier fail with a `MalformedSignature` error. In the code,
`(&sig[..64])` is an out-of-bounds slice index for such a buffer and the
process panics instead of returning an error; this theorem evaluates the
code on exactly that situation. -/
theorem ed25519_verify_short_sig_panics (p : CryptoPrims) (v : Ed25519Verifier)
    (m sig : List Nat) (h : sig.length < 64) :
    Ed25519Verifier.verify p v (.ok m) sig = .panic := by
  simp [Ed25519Verifier.verify, h]

theorem ed25519_verify_short_sig_panics_witness :
    Ed25519Verifier.verify testPrims ⟨List.replicate 32 0⟩ (.ok [104, 105]) [] = .panic :=
  ed25519_verify_short_sig_panics testPrims ⟨List.replicate 32 0⟩ [104, 105] [] (by decide)

/-- C5: both `text_encrypt` and `text_decrypt` use the single hardcoded
12-byte nonce `[249, 115, 113, 158, 149, 52, 117, 46, 246, 119, 228, 36]`;
encryption is therefore the pure function
`aeadEncrypt key chachaNonce ∘ plaintext` of its inputs, so two invocations
of `process_text_encrypt` on the same key and plaintext return byte-identical
ciphertext. -/
theorem chacha_fixed_nonce_deterministic (p : CryptoPrims) (key m : List Nat)
    (hk : key.length = 32) :
    chachaNonce = [249, 115, 113, 158, 149, 52, 117, 46, 246, 119, 228, 36] ∧
    process_text_encrypt p (.ok m) key = .ok (p.aeadEncrypt key chachaNonce m) ∧
    (∀ ct, (process_text_decrypt p ct key).1 =
      match p.aeadDecrypt key chachaNonce ct with
      | some pt => .ok pt
      | none => .error "decrypt error: aead::Error") := by
  refine ⟨rfl, ?_, ?_⟩
  · simp [process_text_encrypt, Chacha2.try_new, hk, Chacha2.text_encrypt,
      list_take_of_length_eq hk]
  · intro ct
    cases hx : p.aeadDecrypt key chachaNonce ct <;>
      simp [process_text_decrypt, Chacha2.try_new, hk, Chacha2.text_decrypt,
        list_take_of_length_eq hk, hx]

theorem chacha_fixed_nonce_deterministic_witness :
    chachaNonce = [249, 115, 113, 158, 149, 52, 117, 46, 246, 119, 228, 36] ∧
    process_text_encrypt testPrims (.ok [1, 2, 3]) (List.replicate 32 7) =
      .ok (testPrims.aeadEncrypt (List.replicate 32 7) chachaNonce [1, 2, 3]) ∧
    (∀ ct, (process_text_decrypt testPrims ct (List.replicate 32 7)).1 =
      match testPrims.aeadDecrypt (List.replicate 32 7) chachaNonce ct with
      | some pt => .ok pt
      | none => .error "decrypt error: aead::Error") :=
  chacha_fixed_nonce_deterministic testPrims (List.replicate 32 7) [1, 2, 3] (by simp)

/-- C6: keyed-hash verification recomputes the 32-byte tag over the whole
input and compares it byte-for-byte to `sig`; it returns `Ok(true)` exactly
on equality, `Ok(false)` on any length or content mismatch (a normal
non-error outcome), and only fails when the underlying read fails. -/
theorem blake3_verify_exact_compare (p : CryptoPrims) (b : Blake3) (m sig : List Nat)
    (htag : (p.blake3KeyedHash b.key m).length = 32) :
    Blake3.verify p b (.ok m) sig = .ok (decide (p.blake3KeyedHash b.key m = sig)) ∧
    (Blake3.verify p b (.ok m) sig = .ok true ↔ p.blake3KeyedHash b.key m = sig) ∧
    (p.blake3KeyedHash b.key m ≠ sig → Blake3.verify p b (.ok m) sig = .ok false) ∧
    (sig.length ≠ 32 → Blake3.verify p b (.ok m) sig = .ok false) ∧
    (∀ e, Blake3.verify p b (.error e) sig = .error e) := by
  refine ⟨rfl, ?_, ?_, ?_, fun e => rfl⟩
  · simp [Blake3.verify]
  · intro hne
    simp [Blake3.verify, hne]
  · intro hlen
    have hne : p.blake3KeyedHash b.key m ≠ sig := by
      intro hcontra
      exact hlen (hcontra ▸ htag)
    simp [Blake3.verify, hne]

theorem blake3_verify_exact_compare_witness :
    Blake3.verify testPrims ⟨List.replicate 32 9⟩ (.ok [104]) [5] =
      .ok (decide (testPrims.blake3KeyedHash (List.replicate 32 9) [104] = [5])) ∧
    (Blake3.verify testPrims ⟨List.replicate 32 9⟩ (.ok [104]) [5] = .ok true ↔
      testPrims.blake3KeyedHash (List.replicate 32 9) [104] = [5]) ∧
    (testPrims.blake3KeyedHash (List.replicate 32 9) [104] ≠ [5] →
      Blake3.verify testPrims ⟨List.replicate 32 9⟩ (.ok [104]) [5] = .ok false) ∧
    ([5].length ≠ 32 →
      Blake3.verify testPrims ⟨List.replicate 32 9⟩ (.ok [104]) [5] = .ok false) ∧
    (∀ e, Blake3.verify testPrims ⟨List.replicate 32 9⟩ (.error e) [5] = .error e) :=
  blake3_verify_exact_compare testPrims ⟨List.replicate 32 9⟩ [104] [5] (by simp [testPrims])

/-- C8: a 32-byte length is necessary but not sufficient for constructing the
asymmetric verifier: whenever the 32 bytes do not decode to a valid public
key, `Ed25519Verifier::try_new` propagates the decoding error even though the
length check passed. -/
theorem ed25519_verifier_key_validity_check (p : CryptoPrims) (key : List Nat)
    (h32 : key.length = 32) (hbad : p.edPubValid key = false) :
    Ed25519Verifier.try_new p key =
      .error "signature error: Verification equation was not satisfied" := by
  simp [Ed25519Verifier.try_new, h32, list_take_of_length_eq h32, hbad]

theorem ed25519_verifier_key_validity_check_witness :
    Ed25519Verifier.try_new rejectingPrims (List.replicate 32 0) =
      .error "signature error: Verification equation was not satisfied" :=
  ed25519_verifier_key_validity_check rejectingPrims (List.replicate 32 0)
    (by simp) (by simp [rejectingPrims, testPrims])

/-- C10: although decryption receives the ciphertext as a mutable buffer,
`text_decrypt` (and `process_text_decrypt`) only reads it: the buffer state
after the call equals the state before, on success and on failure alike. -/
theorem text_decrypt_preserves_buffer (p : CryptoPrims) (key buf : List Nat) :
    (process_text_decrypt p buf key).2 = buf ∧
    ∀ c : Chacha2, (Chacha2.text_decrypt p c buf).2 = buf := by
  have hdec : ∀ c : Chacha2, (Chacha2.text_decrypt p c buf).2 = buf := by
    intro c
    unfold Chacha2.text_decrypt
    split
    · rfl
    · split <;> rfl
  refine ⟨?_, hdec⟩
  unfold process_text_decrypt
  split
  · exact hdec _
  · rfl
  · rfl

/-- C1: verifying the signature produced by signing returns `Ok(true)` for
both algorithm families. For keyed-hash this needs nothing beyond the code;
for Ed25519 the hypotheses are the `ed25519_dalek` contract (signatures are
64 bytes, the derived public key is a valid 32-byte key, and verification
accepts a signature produced with the matching seed), and verification uses
the public key corresponding to the 32-byte seed. -/
theorem sign_verify_roundtrip (p : CryptoPrims) (key m : List Nat)
    (hk : key.length = 32)
    (hlen : (p.edSign key m).length = 64)
    (hpub : (p.edDerivePub key).length = 32)
    (hvalid : p.edPubValid (p.edDerivePub key) = true)
    (hverify : p.edVerify (p.edDerivePub key) m (p.edSign key m) = true) :
    (∀ sig, process_text_sign p (.ok m) key .Blake3 = .ok sig →
      process_text_verify p (.ok m) key sig .Blake3 = .ok true) ∧
    (∀ sig, process_text_sign p (.ok m) key .Ed25519 = .ok sig →
      process_text_verify p (.ok m) (p.edDerivePub key) sig .Ed25519 = .ok true) := by
  have htake : key.take 32 = key := list_take_of_length_eq hk
  have hptake : (p.edDerivePub key).take 32 = p.edDerivePub key :=
    list_take_of_length_eq hpub
  constructor
  · intro sig hsig
    simp [process_text_sign, Blake3.try_new, hk, htake, Blake3.sign] at hsig
    simp [process_text_verify, Blake3.try_new, hk, htake, Blake3.verify, hsig]
  · intro sig hsig
    simp [process_text_sign, Ed25519Signer.try_new, hk, htake,
      Ed25519Signer.sign] at hsig
    subst hsig
    simp [process_text_verify, Ed25519Verifier.try_new, hpub, hptake, hvalid,
      Ed25519Verifier.verify, hlen, list_take_of_length_eq hlen, hverify]

theorem sign_verify_roundtrip_witness :
    (∀ sig, process_text_sign testPrims (.ok [104, 105]) (List.replicate 32 0) .Blake3 = .ok sig →
      process_text_verify testPrims (.ok [104, 105]) (List.replicate 32 0) sig .Blake3 = .ok true) ∧
    (∀ sig, process_text_sign testPrims (.ok [104, 105]) (List.replicate 32 0) .Ed25519 = .ok sig →
      process_text_verify testPrims (.ok [104, 105])
        (testPrims.edDerivePub (List.replicate 32 0)) sig .Ed25519 = .ok true) :=
  sign_verify_roundtrip testPrims (List.replicate 32 0) [104, 105]
    (by simp) (by simp [testPrims]) (by simp [testPrims])
    (by simp [testPrims]) (by simp [testPrims])

/-- C2: decrypting the output of encryption under the same 32-byte key (and
the engine's nonce) returns the original plaintext, given the AEAD contract
that decryption inverts encryption for that key/nonce pair. -/
theorem encrypt_decrypt_roundtrip (p : CryptoPrims) (key pt : List Nat)
    (hk : key.length = 32)
    (haead : p.aeadDecrypt key chachaNonce (p.aeadEncrypt key chachaNonce pt) = some pt) :
    ∀ ct, process_text_encrypt p (.ok pt) key = .ok ct →
      (process_text_decrypt p ct key).1 = .ok pt := by
  have htake : key.take 32 = key := list_take_of_length_eq hk
  intro ct hct
  simp [process_text_encrypt, Chacha2.try_new, hk, htake, Chacha2.text_encrypt] at hct
  simp [process_text_decrypt, Chacha2.try_new, hk, htake, Chacha2.text_decrypt,
    ← hct, haead]

theorem encrypt_decrypt_roundtrip_witness :
    (process_text_decrypt testPrims [10, 20, 30] (List.replicate 32 1)).1 = .ok [10, 20, 30] :=
  encrypt_decrypt_roundtrip testPrims (List.replicate 32 1) [10, 20, 30]
    (by simp) (by simp [testPrims]) [10, 20, 30] (by rfl)

/-! ## Helper lemmas for the password generator -/

theorem classStep_spec (r : Rng) (hc : r.ChooseOk) (flag : Bool) (alpha : List Nat)
    (ha : alpha ≠ []) (pw ch : List Nat) (s : Nat) :
    ∃ add s', classStep r flag alpha (pw, ch, s) =
        .ok (pw ++ add, ch ++ (if flag then alpha else []), s') ∧
      add.length = (if flag then 1 else 0) ∧ (∀ x ∈ add, x ∈ alpha) ∧
      (flag = true → ∃ x, x ∈ add ∧ x ∈ alpha) := by
  cases flag with
  | false =>
    refine ⟨[], s, ?_, rfl, by simp, by simp⟩
    simp [classStep]
  | true =>
    obtain ⟨h1, h2⟩ := hc s alpha
    cases hx : r.choose s alpha with
    | mk o s' =>
      cases o with
      | none => exact absurd (h2 (by rw [hx])) ha
      | some c =>
        have hcmem : c ∈ alpha := h1 c (by rw [hx])
        refine ⟨[c], s', ?_, rfl, by simpa using hcmem, fun _ => ⟨c, by simp, hcmem⟩⟩
        simp [classStep, hx]

theorem fillLoop_spec (r : Rng) (hc : r.ChooseOk) (chars : List Nat) (hch : chars ≠ []) :
    ∀ n pw s, ∃ add s', fillLoop r chars n pw s = .ok (pw ++ add, s') ∧
      add.length = n ∧ ∀ x ∈ add, x ∈ chars := by
  intro n
  induction n with
  | zero =>
    intro pw s
    exact ⟨[], s, by simp [fillLoop], rfl, by simp⟩
  | succ k ih =>
    intro pw s
    obtain ⟨h1, h2⟩ := hc s chars
    cases hx : r.choose s chars with
    | mk o s1 =>
      cases o with
      | none => exact absurd (h2 (by rw [hx])) hch
      | some c =>
        have hcmem : c ∈ chars := h1 c (by rw [hx])
        obtain ⟨add, s', heq, hlen, hmem⟩ := ih (pw ++ [c]) s1
        refine ⟨c :: add, s', ?_, by simp [hlen], ?_⟩
        · simp only [fillLoop, hx]
          rw [heq]
          simp
        · intro x hx'
          rcases List.mem_cons.mp hx' with rfl | h
          · exact hcmem
          · exact hmem x h

theorem fillLoop_ok_sub (r : Rng) (hc : r.ChooseOk) (chars : List Nat) :
    ∀ n pw s pw' s', fillLoop r chars n pw s = .ok (pw', s') →
      ∃ add, pw' = pw ++ add ∧ ∀ x ∈ add, x ∈ chars := by
  intro n
  induction n with
  | zero =>
    intro pw s pw' s' h
    simp [fillLoop] at h
    exact ⟨[], by simp [h.1], by simp⟩
  | succ k ih =>
    intro pw s pw' s' h
    obtain ⟨h1, h2⟩ := hc s chars
    cases hx : r.choose s chars with
    | mk o s1 =>
      cases o with
      | none =>
        simp only [fillLoop, hx] at h
        exact RustOutcome.noConfusion h
      | some c =>
        simp only [fillLoop, hx] at h
        have hcmem : c ∈ chars := h1 c (by rw [hx])
        obtain ⟨add, hpw, hmem⟩ := ih (pw ++ [c]) s1 pw' s' h
        refine ⟨c :: add, by simp [hpw], ?_⟩
        intro x hx'
        rcases List.mem_cons.mp hx' with rfl | hmem'
        · exact hcmem
        · exact hmem x hmem'

theorem charPool_ne_nil {uc lc nb sb : Bool}
    (hone : uc = true ∨ lc = true ∨ nb = true ∨ sb = true) :
    charPool uc lc nb sb ≠ [] := by
  rcases hone with h | h | h | h <;> subst h <;>
    simp [charPool, UPPER, LOWER, NUMBER, SYMBOL]

theorem upper_sub_pool (lc nb sb : Bool) : ∀ x ∈ UPPER, x ∈ charPool true lc nb sb := by
  intro x hx
  simp only [charPool, List.mem_append]
  exact Or.inl (Or.inl (Or.inl (by simpa using hx)))

theorem lower_sub_pool (uc nb sb : Bool) : ∀ x ∈ LOWER, x ∈ charPool uc true nb sb := by
  intro x hx
  simp only [charPool, List.mem_append]
  exact Or.inl (Or.inl (Or.inr (by simpa using hx)))

theorem number_sub_pool (uc lc sb : Bool) : ∀ x ∈ NUMBER, x ∈ charPool uc lc true sb := by
  intro x hx
  simp only [charPool, List.mem_append]
  exact Or.inl (Or.inr (by simpa using hx))

theorem symbol_sub_pool (uc lc nb : Bool) : ∀ x ∈ SYMBOL, x ∈ charPool uc lc nb true := by
  intro x hx
  simp only [charPool, List.mem_append]
  exact Or.inr (by simpa using hx)

theorem add_mem_pool (uc lc nb sb : Bool) (flag : Bool) (alpha add : List Nat)
    (hcomp : flag = true → ∀ x ∈ alpha, x ∈ charPool uc lc nb sb)
    (hlen : add.length = (if flag then 1 else 0))
    (hmem : ∀ x ∈ add, x ∈ alpha) :
    ∀ x ∈ add, x ∈ charPool uc lc nb sb := by
  cases flag with
  | false =>
    have hnil : add = [] := List.length_eq_zero.mp (by simpa using hlen)
    subst hnil
    intro x hx
    simp at hx
  | true =>
    intro x hx
    exact hcomp rfl x (hmem x hx)

theorem mem_ALLCHARS_of_pool (uc lc nb sb : Bool) :
    ∀ x ∈ charPool uc lc nb sb, x ∈ ALLCHARS := by
  intro x hx
  simp only [charPool, List.mem_append] at hx
  simp only [ALLCHARS, List.mem_append]
  rcases hx with ((h | h) | h) | h
  · cases uc with
    | false => simp at h
    | true => simp at h; exact Or.inl (Or.inl (Or.inl h))
  · cases lc with
    | false => simp at h
    | true => simp at h; exact Or.inl (Or.inl (Or.inr h))
  · cases nb with
    | false => simp at h
    | true => simp at h; exact Or.inl (Or.inr h)
  · cases sb with
    | false => simp at h
    | true => simp at h; exact Or.inr h

theorem allchars_lt_128 : ∀ x ∈ ALLCHARS, x < 128 := by decide

/-- C7 (amended): provided at least one character class is enabled and
`length` is at least the number of enabled classes, `process_genpass`
succeeds and returns exactly `length` bytes, each drawn from the enabled
alphabets, with at least one character from every enabled class. (As
written, the claim also covers the case where no class is enabled; there the
code panics — see the counterexample.) The hypotheses `hc`/`hs` are the
`rand` crate's contract for `choose` and `shuffle`. -/
theorem genpass_contract (r : Rng) (hc : r.ChooseOk) (hs : r.ShuffleOk)
    (s0 len : Nat) (uc lc nb sb : Bool)
    (hone : uc = true ∨ lc = true ∨ nb = true ∨ sb = true)
    (hlen : numEnabled uc lc nb sb ≤ len) :
    ∃ pw, process_genpass r s0 len uc lc nb sb = .ok pw ∧
      pw.length = len ∧
      (∀ x ∈ pw, x ∈ charPool uc lc nb sb) ∧
      (uc = true → ∃ x ∈ pw, x ∈ UPPER) ∧
      (lc = true → ∃ x ∈ pw, x ∈ LOWER) ∧
      (nb = true → ∃ x ∈ pw, x ∈ NUMBER) ∧
      (sb = true → ∃ x ∈ pw, x ∈ SYMBOL) := by
  obtain ⟨add1, s1, e1, hl1, hm1, hg1⟩ := classStep_spec r hc uc UPPER (by decide) [] [] s0
  obtain ⟨add2, s2, e2, hl2, hm2, hg2⟩ := classStep_spec r hc lc LOWER (by decide)
    ([] ++ add1) ([] ++ (if uc then UPPER else [])) s1
  obtain ⟨add3, s3, e3, hl3, hm3, hg3⟩ := classStep_spec r hc nb NUMBER (by decide)
    ([] ++ add1 ++ add2) ([] ++ (if uc then UPPER else []) ++ (if lc then LOWER else [])) s2
  obtain ⟨add4, s4, e4, hl4, hm4, hg4⟩ := classStep_spec r hc sb SYMBOL (by decide)
    ([] ++ add1 ++ add2 ++ add3)
    ([] ++ (if uc then UPPER else []) ++ (if lc then LOWER else []) ++
      (if nb then NUMBER else [])) s3
  have hCH : ([] ++ (if uc then UPPER else []) ++ (if lc then LOWER else []) ++
      (if nb then NUMBER else []) ++ (if sb then SYMBOL else [])) =
      charPool uc lc nb sb := by
    simp [charPool]
  rw [hCH] at e4
  have hlen4 : (([] : List Nat) ++ add1 ++ add2 ++ add3 ++ add4).length =
      numEnabled uc lc nb sb := by
    simp [numEnabled, hl1, hl2, hl3, hl4]
    ring
  have hnl : ¬ len < (([] : List Nat) ++ add1 ++ add2 ++ add3 ++ add4).length := by
    rw [hlen4]
    omega
  obtain ⟨add5, s5, e5, hl5, hm5⟩ := fillLoop_spec r hc (charPool uc lc nb sb)
    (charPool_ne_nil hone)
    (len - (([] : List Nat) ++ add1 ++ add2 ++ add3 ++ add4).length)
    ([] ++ add1 ++ add2 ++ add3 ++ add4) s4
  have hmem1 : ∀ x ∈ add1, x ∈ charPool uc lc nb sb :=
    add_mem_pool uc lc nb sb uc UPPER add1
      (fun h => by subst h; exact upper_sub_pool lc nb sb) hl1 hm1
  have hmem2 : ∀ x ∈ add2, x ∈ charPool uc lc nb sb :=
    add_mem_pool uc lc nb sb lc LOWER add2
      (fun h => by subst h; exact lower_sub_pool uc nb sb) hl2 hm2
  have hmem3 : ∀ x ∈ add3, x ∈ charPool uc lc nb sb :=
    add_mem_pool uc lc nb sb nb NUMBER add3
      (fun h => by subst h; exact number_sub_pool uc lc sb) hl3 hm3
  have hmem4 : ∀ x ∈ add4, x ∈ charPool uc lc nb sb :=
    add_mem_pool uc lc nb sb sb SYMBOL add4
      (fun h => by subst h; exact symbol_sub_pool uc lc nb) hl4 hm4
  have hmemPW : ∀ x ∈ ([] : List Nat) ++ add1 ++ add2 ++ add3 ++ add4 ++ add5,
      x ∈ charPool uc lc nb sb := by
    intro x hx
    simp only [List.mem_append] at hx
    rcases hx with ((((h | h) | h) | h) | h) | h
    · exact absurd h (List.not_mem_nil x)
    · exact hmem1 x h
    · exact hmem2 x h
    · exact hmem3 x h
    · exact hmem4 x h
    · exact hm5 x h
  have hperm : ((r.shuffle s5 (([] : List Nat) ++ add1 ++ add2 ++ add3 ++ add4 ++ add5)).1).Perm
      (([] : List Nat) ++ add1 ++ add2 ++ add3 ++ add4 ++ add5) :=
    hs s5 _
  have hall : ((r.shuffle s5 (([] : List Nat) ++ add1 ++ add2 ++ add3 ++ add4 ++ add5)).1).all
      (fun b => decide (b < 128)) = true := by
    rw [List.all_eq_true]
    intro b hb
    have hbm := hperm.mem_iff.mp hb
    simpa using allchars_lt_128 b (mem_ALLCHARS_of_pool uc lc nb sb b (hmemPW b hbm))
  have hrun : process_genpass r s0 len uc lc nb sb =
      .ok ((r.shuffle s5 (([] : List Nat) ++ add1 ++ add2 ++ add3 ++ add4 ++ add5)).1) := by
    unfold process_genpass
    rw [e1]
    simp only [RustOutcome.bind_ok]
    rw [e2]
    simp only [RustOutcome.bind_ok]
    rw [e3]
    simp only [RustOutcome.bind_ok]
    rw [e4]
    simp only [RustOutcome.bind_ok]
    rw [if_neg hnl, e5]
    simp only [RustOutcome.bind_ok]
    rw [if_pos hall]
  refine ⟨_, hrun, ?_, fun x hx => hmemPW x (hperm.mem_iff.mp hx), ?_, ?_, ?_, ?_⟩
  · rw [hperm.length_eq, List.length_append, hl5]
    omega
  · intro h
    obtain ⟨x, hxadd, hxU⟩ := hg1 h
    refine ⟨x, hperm.mem_iff.mpr ?_, hxU⟩
    simp only [List.mem_append]
    exact Or.inl (Or.inl (Or.inl (Or.inl (Or.inr hxadd))))
  · intro h
    obtain ⟨x, hxadd, hxL⟩ := hg2 h
    refine ⟨x, hperm.mem_iff.mpr ?_, hxL⟩
    simp only [List.mem_append]
    exact Or.inl (Or.inl (Or.inl (Or.inr hxadd)))
  · intro h
    obtain ⟨x, hxadd, hxN⟩ := hg3 h
    refine ⟨x, hperm.mem_iff.mpr ?_, hxN⟩
    simp only [List.mem_append]
    exact Or.inl (Or.inl (Or.inr hxadd))
  · intro h
    obtain ⟨x, hxadd, hxS⟩ := hg4 h
    refine ⟨x, hperm.mem_iff.mpr ?_, hxS⟩
    simp only [List.mem_append]
    exact Or.inl (Or.inr hxadd)

/-- C7 counterexample: under the claim's precondition alone (`length` at
least the number of enabled classes, here `1 ≥ 0`) the generator does not
return `length` bytes — with no class enabled and `length = 1` the combined
pool is empty and `chars.choose(..).expect(..)` panics. -/
theorem genpass_no_class_counterexample :
    process_genpass simpleRng 0 1 false false false false = .panic := by
  rfl

theorem genpass_contract_witness :
    ∃ pw, process_genpass simpleRng 0 16 true false true false = .ok pw ∧
      pw.length = 16 ∧
      (∀ x ∈ pw, x ∈ charPool true false true false) ∧
      (true = true → ∃ x ∈ pw, x ∈ UPPER) ∧
      (false = true → ∃ x ∈ pw, x ∈ LOWER) ∧
      (true = true → ∃ x ∈ pw, x ∈ NUMBER) ∧
      (false = true → ∃ x ∈ pw, x ∈ SYMBOL) :=
  genpass_contract simpleRng simpleRng_choose_ok simpleRng_shuffle_ok 0 16
    true false true false (Or.inl rfl) (by decide)

/-- Whenever `process_genpass` returns `Ok`, every returned byte belongs to
the combined pool of the enabled alphabets. -/
theorem genpass_ok_mem_pool (r : Rng) (hc : r.ChooseOk) (hs : r.ShuffleOk)
    (s0 len : Nat) (uc lc nb sb : Bool) (pw : List Nat)
    (h : process_genpass r s0 len uc lc nb sb = .ok pw) :
    ∀ x ∈ pw, x ∈ charPool uc lc nb sb := by
  obtain ⟨add1, s1, e1, hl1, hm1, hg1⟩ := classStep_spec r hc uc UPPER (by decide) [] [] s0
  obtain ⟨add2, s2, e2, hl2, hm2, hg2⟩ := classStep_spec r hc lc LOWER (by decide)
    ([] ++ add1) ([] ++ (if uc then UPPER else [])) s1
  obtain ⟨add3, s3, e3, hl3, hm3, hg3⟩ := classStep_spec r hc nb NUMBER (by decide)
    ([] ++ add1 ++ add2) ([] ++ (if uc then UPPER else []) ++ (if lc then LOWER else [])) s2
  obtain ⟨add4, s4, e4, hl4, hm4, hg4⟩ := classStep_spec r hc sb SYMBOL (by decide)
    ([] ++ add1 ++ add2 ++ add3)
    ([] ++ (if uc then UPPER else []) ++ (if lc then LOWER else []) ++
      (if nb then NUMBER else [])) s3
  have hCH : ([] ++ (if uc then UPPER else []) ++ (if lc then LOWER else []) ++
      (if nb then NUMBER else []) ++ (if sb then SYMBOL else [])) =
      charPool uc lc nb sb := by
    simp [charPool]
  rw [hCH] at e4
  have hmem1 : ∀ x ∈ add1, x ∈ charPool uc lc nb sb :=
    add_mem_pool uc lc nb sb uc UPPER add1
      (fun hf => by subst hf; exact upper_sub_pool lc nb sb) hl1 hm1
  have hmem2 : ∀ x ∈ add2, x ∈ charPool uc lc nb sb :=
    add_mem_pool uc lc nb sb lc LOWER add2
      (fun hf => by subst hf; exact lower_sub_pool uc nb sb) hl2 hm2
  have hmem3 : ∀ x ∈ add3, x ∈ charPool uc lc nb sb :=
    add_mem_pool uc lc nb sb nb NUMBER add3
      (fun hf => by subst hf; exact number_sub_pool uc lc sb) hl3 hm3
  have hmem4 : ∀ x ∈ add4, x ∈ charPool uc lc nb sb :=
    add_mem_pool uc lc nb sb sb SYMBOL add4
      (fun hf => by subst hf; exact symbol_sub_pool uc lc nb) hl4 hm4
  unfold process_genpass at h
  rw [e1] at h
  simp only [RustOutcome.bind_ok] at h
  rw [e2] at h
  simp only [RustOutcome.bind_ok] at h
  rw [e3] at h
  simp only [RustOutcome.bind_ok] at h
  rw [e4] at h
  simp only [RustOutcome.bind_ok] at h
  by_cases hnl : len < (([] : List Nat) ++ add1 ++ add2 ++ add3 ++ add4).length
  · rw [if_pos hnl] at h
    exact RustOutcome.noConfusion h
  · rw [if_neg hnl] at h
    cases hfl : fillLoop r (charPool uc lc nb sb)
        (len - (([] : List Nat) ++ add1 ++ add2 ++ add3 ++ add4).length)
        ([] ++ add1 ++ add2 ++ add3 ++ add4) s4 with
    | error e =>
      rw [hfl] at h
      simp only [RustOutcome.bind_error] at h
      exact RustOutcome.noConfusion h
    | panic =>
      rw [hfl] at h
      simp only [RustOutcome.bind_panic] at h
      exact RustOutcome.noConfusion h
    | ok ps =>
      obtain ⟨pw1, s5⟩ := ps
      rw [hfl] at h
      simp only [RustOutcome.bind_ok] at h
      obtain ⟨add5, hpw1, hmem5⟩ := fillLoop_ok_sub r hc (charPool uc lc nb sb)
        (len - (([] : List Nat) ++ add1 ++ add2 ++ add3 ++ add4).length)
        ([] ++ add1 ++ add2 ++ add3 ++ add4) s4 pw1 s5 hfl
      subst hpw1
      have hperm := hs s5 (([] : List Nat) ++ add1 ++ add2 ++ add3 ++ add4 ++ add5)
      split at h
      · have hpw : pw =
            (r.shuffle s5 (([] : List Nat) ++ add1 ++ add2 ++ add3 ++ add4 ++ add5)).1 := by
          injection h with h'
          exact h'.symm
        subst hpw
        intro x hx
        have hxm := hperm.mem_iff.mp hx
        simp only [List.mem_append] at hxm
        rcases hxm with ((((hm | hm) | hm) | hm) | hm) | hm
        · exact absurd hm (List.not_mem_nil x)
        · exact hmem1 x hm
        · exact hmem2 x hm
        · exact hmem3 x hm
        · exact hmem4 x hm
        · exact hmem5 x hm
      · exact RustOutcome.noConfusion h

/-- C9: every byte returned by `process_genpass` (and hence every byte of a
generated keyed-hash symmetric key from `Blake3::generate`) comes from the
four hardcoded alphabets; those alphabets omit the ambiguous characters
`0` (48), `I` (73), `O` (79), `g` (103) and `l` (108), and the only
non-alphanumeric bytes possible are the members of `SYMBOL`. -/
theorem genpass_no_ambiguous (r : Rng) (hc : r.ChooseOk) (hs : r.ShuffleOk)
    (s0 sg len : Nat) (uc lc nb sb : Bool) (pw : List Nat)
    (kv : List (String × List Nat))
    (h : process_genpass r s0 len uc lc nb sb = .ok pw)
    (hg : Blake3.generate r sg = .ok kv) :
    (∀ b ∈ pw, b ∈ ALLCHARS) ∧
    48 ∉ pw ∧ 73 ∉ pw ∧ 79 ∉ pw ∧ 103 ∉ pw ∧ 108 ∉ pw ∧
    (∀ e ∈ kv, ∀ b ∈ e.2,
      b ∈ ALLCHARS ∧ b ≠ 48 ∧ b ≠ 73 ∧ b ≠ 79 ∧ b ≠ 103 ∧ b ≠ 108) := by
  have hmem : ∀ b ∈ pw, b ∈ ALLCHARS := fun b hb =>
    mem_ALLCHARS_of_pool uc lc nb sb b
      (genpass_ok_mem_pool r hc hs s0 len uc lc nb sb pw h b hb)
  have hnotin : ∀ c : Nat, c ∉ ALLCHARS → c ∉ pw := fun c hcn hcin => hcn (hmem c hcin)
  refine ⟨hmem, hnotin 48 (by decide), hnotin 73 (by decide), hnotin 79 (by decide),
    hnotin 103 (by decide), hnotin 108 (by decide), ?_⟩
  intro e he b hb
  unfold Blake3.generate at hg
  cases hgen : process_genpass r sg 32 true true true true with
  | error er =>
    rw [hgen] at hg
    simp only [RustOutcome.bind_error] at hg
    exact RustOutcome.noConfusion hg
  | panic =>
    rw [hgen] at hg
    simp only [RustOutcome.bind_panic] at hg
    exact RustOutcome.noConfusion hg
  | ok key =>
    rw [hgen] at hg
    simp only [RustOutcome.bind_ok] at hg
    injection hg with hkv
    subst hkv
    have hkmem : ∀ x ∈ key, x ∈ ALLCHARS := fun x hx =>
      mem_ALLCHARS_of_pool true true true true x
        (genpass_ok_mem_pool r hc hs sg 32 true true true true key hgen x hx)
    have hee : e = ("blake3.txt", key) := by simpa using he
    have hbA : b ∈ ALLCHARS := hkmem b (by rw [hee] at hb; exact hb)
    have hne : ∀ c : Nat, c ∉ ALLCHARS → b ≠ c := fun c hcn heq => hcn (heq ▸ hbA)
    exact ⟨hbA, hne 48 (by decide), hne 73 (by decide), hne 79 (by decide),
      hne 103 (by decide), hne 108 (by decide)⟩

theorem genpass_no_ambiguous_witness :
    (∀ b ∈ ([] : List Nat), b ∈ ALLCHARS) ∧
    48 ∉ ([] : List Nat) ∧ 73 ∉ ([] : List Nat) ∧ 79 ∉ ([] : List Nat) ∧
    103 ∉ ([] : List Nat) ∧ 108 ∉ ([] : List Nat) ∧
    (∀ e ∈ [(("blake3.txt" : String), [65, 97, 49, 33] ++ List.replicate 28 65)], ∀ b ∈ e.2,
      b ∈ ALLCHARS ∧ b ≠ 48 ∧ b ≠ 73 ∧ b ≠ 79 ∧ b ≠ 103 ∧ b ≠ 108) :=
  genpass_no_ambiguous simpleRng simpleRng_choose_ok simpleRng_shuffle_ok
    0 0 0 false false false false []
    [(("blake3.txt" : String), [65, 97, 49, 33] ++ List.replicate 28 65)]
    (by rfl) (by rfl)
